import Mathlib

/-!
Substack newsletter directory scraper: scope filter, page classifier, extractors

A shallow embedding of `src/main.js`.  The crawler framework, the DOM query
engines and the platform `URL` constructor are not part of the program; they
enter the model as inputs:

* a page is the tuple of answers the extractor gets from its DOM queries;
* `new URL(..)` is a field of `URLApi` (general theorems hold for every such
  function), with `whatwg` a concrete model of the constructor on a documented
  fragment, used to evaluate the code at concrete inputs;
* `new Date().toISOString()` is the argument `now` of the extractors.
-/

namespace Scraper

/-! ## JavaScript values and string primitives -/

/-- The JavaScript values the program manipulates. -/
inductive JSVal where
  | undefined
  | null
  | str (s : String)
  | arr (xs : List String)
  deriving DecidableEq, Repr

namespace JSVal

/-- JavaScript truthiness (`ToBoolean`). -/
def truthy : JSVal → Bool
  | undefined => false
  | null => false
  | str s => s ≠ ""
  | arr _ => true

/-- The operator `a || b`. -/
def or (a b : JSVal) : JSVal := if a.truthy then a else b

/-- JavaScript `ToString`, as applied by `+` and by template literals. -/
def toStr : JSVal → String
  | undefined => "undefined"
  | null => "null"
  | str s => s
  | arr xs => ",".intercalate xs

/-- Whether the value has type string. -/
def isString : JSVal → Bool
  | str _ => true
  | _ => false

end JSVal

/-- The code points matched by `\s` and stripped by `String.prototype.trim`
(ECMAScript WhiteSpace and LineTerminator). -/
def isJSWhitespace (c : Char) : Bool :=
  c.val = 0x09 || c.val = 0x0A || c.val = 0x0B || c.val = 0x0C || c.val = 0x0D ||
  c.val = 0x20 || c.val = 0xA0 || c.val = 0x1680 ||
  (0x2000 ≤ c.val && c.val ≤ 0x200A) ||
  c.val = 0x2028 || c.val = 0x2029 || c.val = 0x202F || c.val = 0x205F ||
  c.val = 0x3000 || c.val = 0xFEFF

/-- Trimming on character lists: white space removed from both ends. -/
def trimChars (cs : List Char) : List Char :=
  ((cs.dropWhile isJSWhitespace).reverse.dropWhile isJSWhitespace).reverse

/-- The method `s.trim()`. -/
def trim (s : String) : String := ⟨trimChars s.data⟩

/-- Substring test on character lists. -/
def includesChars (cs needle : List Char) : Bool :=
  cs.tails.any (fun t => needle.isPrefixOf t)

/-- The method `s.includes(needle)`. -/
def includes (s needle : String) : Bool := includesChars s.data needle.data

/-- The method `s.endsWith(needle)`. -/
def endsWith (s needle : String) : Bool := needle.data.isSuffixOf s.data

/-- The call `url.replace(/\/$/, '')`: one slash removed from the end. -/
def stripTrailingSlash (s : String) : String :=
  if s.data.getLast? = some '/' then ⟨s.data.dropLast⟩ else s

/-! ## The regular expressions of the program -/

/-- Tail of `/^[^/]+\.substack\.com/` once one non-slash character is consumed. -/
def substackAfterRun : List Char → Bool
  | [] => false
  | c :: cs => (".substack.com".data.isPrefixOf (c :: cs)) || (c ≠ '/' && substackAfterRun cs)

/-- Whether `url.match(/^[^/]+\.substack\.com/)` is non-null. -/
def matchSubstackStart (url : String) : Bool :=
  match url.data with
  | [] => false
  | c :: cs => c ≠ '/' && substackAfterRun cs

/-- The class `[\d,]`. -/
def isDigitOrComma (c : Char) : Bool := c.isDigit || c = ','

/-- Case-insensitive match (flag `i`, no flag `u`) of a lower-case ASCII word
at the head of the input. -/
def ciStartsWith (word cs : List Char) : Bool :=
  (cs.take word.length).map Char.toLower = word

/-- The regular expression `/[\d,]{2,}\s+(?:subscribers|subscribers?)/i` tried at
one position; the result is the matched text. -/
def subscribersMatchAt (cs : List Char) : Option (List Char) :=
  let digits := cs.takeWhile isDigitOrComma
  let rest := cs.dropWhile isDigitOrComma
  let ws := rest.takeWhile isJSWhitespace
  let word := rest.dropWhile isJSWhitespace
  if digits.length < 2 ∨ ws.length < 1 then none
  else if ciStartsWith "subscribers".data word then some (digits ++ ws ++ word.take 11)
  else if ciStartsWith "subscriber".data word then some (digits ++ ws ++ word.take 10)
  else none

/-- Leftmost match of the subscribers expression. -/
def subscribersSearch : List Char → Option (List Char)
  | [] => none
  | c :: cs =>
    match subscribersMatchAt (c :: cs) with
    | some m => some m
    | none => subscribersSearch cs

/-- The value `text.match(/[\d,]{2,}\s+(?:subscribers|subscribers?)/i)`, reduced
to element 0 of the match array (`none` for `null`). -/
def subscribersMatch (text : String) : Option String :=
  (subscribersSearch text.data).map String.mk

/-! ## The URL constructor -/

/-- The properties of a `URL` object the program reads. -/
structure URLRecord where
  protocol : String
  host : String
  href : String
  deriving DecidableEq, Repr

/-- The platform constructor: `parse u` is `new URL(u)` and `resolve href base`
is `new URL(href, base)`; `none` stands for a thrown `TypeError`. -/
structure URLApi where
  parse : String → Option URLRecord
  resolve : String → String → Option URLRecord

/-- Host characters of the modelled fragment. -/
def isHostChar (c : Char) : Bool := c.isLower || c.isDigit || c = '.'

/-- Path and query characters of the modelled fragment. -/
def isTailChar (c : Char) : Bool :=
  c.isAlphanum || c = '/' || c = '-' || c = '_' || c = '=' || c = '&' || c = '?' || c = '.'

/-- A host of the fragment: non-empty, lower-case letters, digits and dots, the
last label starting with a letter (so it is not read as an IPv4 address). -/
def hostOk (host : List Char) : Bool :=
  host.all isHostChar &&
  (match (host.reverse.takeWhile (fun c => c ≠ '.')).getLast? with
   | some c => c.isLower
   | none => false)

/-- A path-and-query of the fragment: nothing to escape, no dot segment. -/
def tailOk (tail : List Char) : Bool :=
  tail.all isTailChar && !(includesChars tail "/.".data)

/-- Scheme of the fragment, with the text after `://`. -/
def splitScheme (cs : List Char) : Option (String × List Char) :=
  if "https://".data.isPrefixOf cs then some ("https:", cs.drop 8)
  else if "http://".data.isPrefixOf cs then some ("http:", cs.drop 7)
  else none

/-- Model of `new URL(s)` on the fragment `http(s)://host[/path][?query]`. -/
def parseAbsolute (s : String) : Option URLRecord :=
  match splitScheme s.data with
  | none => none
  | some (proto, rest) =>
    let host := rest.takeWhile (fun c => c ≠ '/' && c ≠ '?')
    let tail := rest.dropWhile (fun c => c ≠ '/' && c ≠ '?')
    if hostOk host && tailOk tail then
      some ⟨proto, String.mk host,
        proto ++ "//" ++ String.mk host ++ (if tail.head? = some '/' then "" else "/") ++
          String.mk tail⟩
    else none

/-- Whether a reference is a path-absolute one of the fragment (`/a/b?c`). -/
def isPathAbsolute (href : List Char) : Bool :=
  match href with
  | '/' :: rest => rest.head? ≠ some '/' && tailOk href
  | _ => false

/-- Model of `new URL(href, base)`: the base must parse; the reference is an
absolute URL of the fragment or a path-absolute reference. -/
def resolveAgainst (href base : String) : Option URLRecord :=
  match parseAbsolute base with
  | none => none
  | some b =>
    match parseAbsolute href with
    | some u => some u
    | none =>
      if isPathAbsolute href.data then
        some ⟨b.protocol, b.host, b.protocol ++ "//" ++ b.host ++ href⟩
      else none

/-- A concrete model of the WHATWG `URL` constructor.  It agrees with the
constructor on `http://` and `https://` URLs whose host is made of lower-case
letters, digits and dots (last label starting with a letter) and whose path and
query use letters, digits and `/ - _ = & ? .` without a segment that starts with
a dot, and on path-absolute references against such a base.  Elsewhere it
answers `none`; the only such inputs evaluated below are `not a url` (no scheme
and no base) and URLs whose host contains a space, on which the constructor
throws as well. -/
def whatwg : URLApi := ⟨parseAbsolute, resolveAgainst⟩

/-! ## Requests -/

/-- A crawl request as the handlers see it. -/
structure Request where
  url : String
  loadedUrl : Option String := none
  startHost : Option String := none
  deriving DecidableEq, Repr

/-- A candidate link handed to `transformRequestFunction`. -/
structure RequestOptions where
  url : String
  deriving DecidableEq, Repr

/-- The function `prepareStartRequests`. -/
def prepareStartRequests (U : URLApi) (urls : Option (List String)) : List Request :=
  (urls.getD []).map fun u =>
    match U.parse u with
    | some parsed => { url := u, startHost := some parsed.host }
    | none => { url := u }

/-- The expression `request.loadedUrl ?? request.url`. -/
def pageUrl (request : Request) : String :=
  match request.loadedUrl with
  | some u => u
  | none => request.url

/-- The expression `request.userData.startHost || new URL(request.url).host`;
`none` when the constructor throws. -/
def seedHost (U : URLApi) (request : Request) : Option String :=
  match request.startHost with
  | some h => if h ≠ "" then some h else (U.parse request.url).map (fun u => u.host)
  | none => (U.parse request.url).map (fun u => u.host)

/-- The `transformRequestFunction` of both crawlers (the two copies are the same
text): `none` is `return null`, `some r` is `return r`. -/
def transformRequestFunction (U : URLApi) (followInternalOnly : Bool) (request : Request)
    (r : RequestOptions) : Option RequestOptions :=
  if followInternalOnly then
    match seedHost U request with
    | none => some r
    | some startHost =>
      match U.parse r.url with
      | none => some r
      | some u =>
        if u.host ≠ startHost && !(includes r.url "substack.com") then none else some r
  else some r

/-! ## Page classifier -/

/-- The value of `isSubstackDomain`, as a truth value. -/
def isSubstackDomain (url : String) : Bool :=
  includes url "substack.com" || matchSubstackStart url

/-- The condition under which a handler runs its extractor. -/
def looksLikeNewsletter (url : String) : Bool :=
  isSubstackDomain url || includes url "/archive" || includes url "/posts/"

/-! ## Records -/

/-- A record is an object literal: keys in source order with their values. -/
abbrev Record := List (String × JSVal)

/-- Property access `record[key]`; `none` when the key is missing. -/
def Record.get (r : Record) (key : String) : Option JSVal := List.lookup key r

/-- The keys of a record, in order. -/
def Record.keys (r : Record) : List String := r.map Prod.fst

/-- One step of `new Set(..)` construction: a value already present is skipped. -/
def setAdd (seen : List String) (x : String) : List String :=
  if x ∈ seen then seen else seen ++ [x]

/-- The expression `Array.from(new Set(topics))`: insertion order, first
occurrences kept. -/
def arrayFromSet (topics : List String) : List String := topics.foldl setAdd []

/-- The value of `$(..).attr(name)`: a string, or `undefined`. -/
def attrVal : Option String → JSVal
  | some s => .str s
  | none => .undefined

/-! ## Static extractor -/

/-- The answers of the cheerio queries made by `extractNewsletterFromCheerio`.
A `text()` answer is a string (empty for an empty selection); an `attr()` answer
is `none` when the attribute or the element is missing. -/
structure CheerioPage where
  h1Text : String
  ogTitle : Option String
  titleText : String
  publisherNameText : String
  postLinkText : String
  metaAuthor : Option String
  ogDescription : Option String
  metaDescription : Option String
  subtitleText : String
  topicTexts : List String
  feedHrefs : List (Option String)
  latestHeadingText : String
  latestHref : Option String
  bodyText : String
  deriving DecidableEq, Repr

/-- The constant `title` of the static extractor. -/
def cheerioTitle (p : CheerioPage) : JSVal :=
  (((JSVal.str (trim p.h1Text)).or (attrVal p.ogTitle)).or (.str (trim p.titleText))).or
    (.str "")

/-- The constant `author` of the static extractor. -/
def cheerioAuthor (p : CheerioPage) : JSVal :=
  (((JSVal.str (trim p.publisherNameText)).or (.str (trim p.postLinkText))).or
    (attrVal p.metaAuthor)).or (.str "")

/-- The constant `description` of the static extractor. -/
def cheerioDescription (p : CheerioPage) : JSVal :=
  (((attrVal p.ogDescription).or (attrVal p.metaDescription)).or
    (.str (trim p.subtitleText))).or (.str "")

/-- The body of the `each` callback that fills `topics`. -/
def pushTopic (topics : List String) (text : String) : List String :=
  let t := trim text
  if t ≠ "" then topics ++ [t] else topics

/-- The array `topics` of the static extractor after the `each` loop. -/
def cheerioTopics (p : CheerioPage) : List String := p.topicTexts.foldl pushTopic []

/-- The body of the `each` callback that scans the feed links. -/
def rssStep (U : URLApi) (url : String) (rss : JSVal) (href : JSVal) : JSVal :=
  if href.truthy && !rss.truthy then
    match U.resolve href.toStr url with
    | some u => .str u.href
    | none => href
  else rss

/-- The variable `rss` after the loop over the feed links. -/
def rssScan (U : URLApi) (url : String) (hrefs : List (Option String)) : JSVal :=
  (hrefs.map attrVal).foldl (rssStep U url) (.str "")

/-- The fallback block `if (!rss) { .. }` of the static extractor. -/
def rssFallback (U : URLApi) (url : String) (rss : JSVal) : JSVal :=
  if !rss.truthy then
    match U.parse url with
    | some u => if endsWith u.host "substack.com" then .str (stripTrailingSlash url ++ "/feed") else rss
    | none => rss
  else rss

/-- The variable `rss` of the static extractor. -/
def cheerioRss (U : URLApi) (url : String) (p : CheerioPage) : JSVal :=
  rssFallback U url (rssScan U url p.feedHrefs)

/-- The block computing `latestPost`, shared in shape by both extractors. -/
def latestPostOf (U : URLApi) (url : String) (latestPostTitle latestPostUrl : JSVal) : JSVal :=
  if latestPostTitle.truthy then
    if latestPostUrl.truthy then
      match U.resolve latestPostUrl.toStr url with
      | some u => .str (latestPostTitle.toStr ++ (" — " ++ u.href))
      | none => latestPostTitle
    else .str (latestPostTitle.toStr ++ "")
  else .str ""

/-- The variable `latestPost` of the static extractor. -/
def cheerioLatestPost (U : URLApi) (url : String) (p : CheerioPage) : JSVal :=
  latestPostOf U url ((JSVal.str (trim p.latestHeadingText)).or (.str ""))
    ((attrVal p.latestHref).or (.str ""))

/-- The variable `subscribers` of the static extractor. -/
def cheerioSubscribers (p : CheerioPage) : JSVal :=
  match subscribersMatch p.bodyText with
  | some m => .str m
  | none => .str ""

/-- The record pushed by `extractNewsletterFromCheerio`; `now` is the value of
`new Date().toISOString()` when the record is built. -/
def extractNewsletterFromCheerio (U : URLApi) (request : Request) (p : CheerioPage)
    (now : String) : Record :=
  let url := pageUrl request
  [("title", cheerioTitle p),
   ("author", cheerioAuthor p),
   ("description", cheerioDescription p),
   ("topics", .arr (arrayFromSet (cheerioTopics p))),
   ("rss", cheerioRss U url p),
   ("latest_post", cheerioLatestPost U url p),
   ("subscribers", (cheerioSubscribers p).or (.str "")),
   ("substack_url", .str url),
   ("extracted_at", .str now)]

/-! ## Rendered extractor -/

/-- The answers of the Playwright calls made by `extractNewsletterFromPlaywright`.
The outer `none` is a rejected promise; `getAttribute` resolves to a string or to
`null` (inner `none`). -/
structure PlaywrightPage where
  h1InnerText : Option String
  title : Option String
  publisherNameInnerText : Option String
  metaAuthor : Option (Option String)
  ogDescription : Option (Option String)
  metaDescription : Option (Option String)
  topicElements : Option (List (Option String))
  feedHref : Option (Option String)
  latestHeadingInnerText : Option String
  latestHref : Option (Option String)
  content : Option String
  deriving DecidableEq, Repr

/-- The pattern `promise.catch(() => '')` on a string-valued call. -/
def textOrEmpty : Option String → String
  | some s => s
  | none => ""

/-- The pattern `getAttribute(..).catch(() => '')`. -/
def attrOrEmpty : Option (Option String) → JSVal
  | some (some s) => .str s
  | some none => .null
  | none => .str ""

/-- The constant `title` of the rendered extractor. -/
def playwrightTitle (p : PlaywrightPage) : JSVal :=
  (JSVal.str (textOrEmpty p.h1InnerText)).or (.str (textOrEmpty p.title))

/-- The constant `author` of the rendered extractor. -/
def playwrightAuthor (p : PlaywrightPage) : JSVal :=
  ((JSVal.str (textOrEmpty p.publisherNameInnerText)).or (attrOrEmpty p.metaAuthor)).or (.str "")

/-- The constant `description` of the rendered extractor. -/
def playwrightDescription (p : PlaywrightPage) : JSVal :=
  ((attrOrEmpty p.ogDescription).or (attrOrEmpty p.metaDescription)).or (.str "")

/-- The body of the `for` loop that fills `topics` in the rendered extractor. -/
def pushTopicEl (topics : List String) (el : Option String) : List String :=
  pushTopic topics (textOrEmpty el)

/-- The array `topics` of the rendered extractor after the loop. -/
def playwrightTopics (p : PlaywrightPage) : List String :=
  (p.topicElements.getD []).foldl pushTopicEl []

/-- The variable `rss` of the rendered extractor: the feed link href, nothing else. -/
def playwrightRss (p : PlaywrightPage) : JSVal :=
  (attrOrEmpty p.feedHref).or (.str "")

/-- The variable `latestPost` of the rendered extractor. -/
def playwrightLatestPost (U : URLApi) (url : String) (p : PlaywrightPage) : JSVal :=
  latestPostOf U url ((JSVal.str (trim (textOrEmpty p.latestHeadingInnerText))).or (.str ""))
    ((attrOrEmpty p.latestHref).or (.str ""))

/-- The constant `subscribers` of the rendered extractor. -/
def playwrightSubscribers (p : PlaywrightPage) : JSVal :=
  match subscribersMatch ((JSVal.str (textOrEmpty p.content)).or (.str "")).toStr with
  | some m => .str m
  | none => .str ""

/-- The record pushed by `extractNewsletterFromPlaywright`. -/
def extractNewsletterFromPlaywright (U : URLApi) (request : Request) (p : PlaywrightPage)
    (now : String) : Record :=
  let url := pageUrl request
  [("title", playwrightTitle p),
   ("author", playwrightAuthor p),
   ("description", playwrightDescription p),
   ("topics", .arr (arrayFromSet (playwrightTopics p))),
   ("rss", playwrightRss p),
   ("latest_post", playwrightLatestPost U url p),
   ("subscribers", playwrightSubscribers p),
   ("substack_url", .str url),
   ("extracted_at", .str now)]

/-! ## Request handlers -/

/-- What a request handler does with one page: the links it lets through to the
queue and the record it pushes, if any. -/
structure HandlerResult where
  enqueued : List RequestOptions
  record : Option Record
  deriving DecidableEq, Repr

/-- The `requestHandler` of the `CheerioCrawler`; `links` are the candidates that
`enqueueLinks` found on the page and matched against its globs. -/
def cheerioRequestHandler (U : URLApi) (followInternalOnly : Bool) (request : Request)
    (links : List RequestOptions) (p : CheerioPage) (now : String) : HandlerResult :=
  let url := pageUrl request
  { enqueued := links.filterMap (transformRequestFunction U followInternalOnly request)
    record :=
      if looksLikeNewsletter url then some (extractNewsletterFromCheerio U request p now)
      else none }

/-- The `requestHandler` of the `PlaywrightCrawler`. -/
def playwrightRequestHandler (U : URLApi) (followInternalOnly : Bool) (request : Request)
    (links : List RequestOptions) (p : PlaywrightPage) (now : String) : HandlerResult :=
  let url := pageUrl request
  { enqueued := links.filterMap (transformRequestFunction U followInternalOnly request)
    record :=
      if looksLikeNewsletter url then some (extractNewsletterFromPlaywright U request p now)
      else none }

/-! ## Reference definitions, in the words of the specification -/

/-- Specification side: a host belongs to the `substack.com` domain family when
it is `substack.com` or ends with `.substack.com`. -/
def specInSubstackFamily (host : String) : Bool :=
  host = "substack.com" || endsWith host ".substack.com"

/-- Specification side: the first value that is not the empty string, the empty
string when there is none. -/
def firstNonEmpty : List String → String
  | [] => ""
  | s :: rest => if s ≠ "" then s else firstNonEmpty rest

/-- Specification side: the trimmed value of the first source whose value is
non-empty after trimming, the empty string when there is none. -/
def specFirstNonBlank : List String → String
  | [] => ""
  | s :: rest => if trim s ≠ "" then trim s else specFirstNonBlank rest

/-- The text of a `content` attribute as a source value: empty when missing. -/
def attrText : Option String → String
  | some s => s
  | none => ""

/-- A value of type string. -/
def IsStr (v : JSVal) : Prop := ∃ s, v = JSVal.str s

/-- The six string-valued keys of a record. -/
def stringKeys : List String :=
  ["title", "author", "description", "rss", "latest_post", "subscribers"]

/-- The nine keys of a record, in source order. -/
def recordKeys : List String :=
  ["title", "author", "description", "topics", "rss", "latest_post", "subscribers",
   "substack_url", "extracted_at"]

/-! ## Concrete inputs -/

/-- A start request for the seed `https://a.example.com/`, as built by
`prepareStartRequests`. -/
def seedA : Request := { url := "https://a.example.com/", startHost := some "a.example.com" }

/-- A static page on which every query comes back empty. -/
def blankPage : CheerioPage :=
  { h1Text := "", ogTitle := none, titleText := "", publisherNameText := "",
    postLinkText := "", metaAuthor := none, ogDescription := none, metaDescription := none,
    subtitleText := "", topicTexts := [], feedHrefs := [], latestHeadingText := "",
    latestHref := none, bodyText := "" }

/-- A rendered page on which every locator call is rejected. -/
def blankRendered : PlaywrightPage :=
  { h1InnerText := none, title := none, publisherNameInnerText := none, metaAuthor := none,
    ogDescription := none, metaDescription := none, topicElements := none, feedHref := none,
    latestHeadingInnerText := none, latestHref := none, content := none }

/-! ## Lemmas on the string primitives -/

theorem includesChars_iff (cs needle : List Char) :
    includesChars cs needle = true ↔ needle <:+: cs := by
  unfold includesChars
  rw [List.any_eq_true, List.infix_iff_prefix_suffix]
  constructor
  · rintro ⟨t, ht, hp⟩
    exact ⟨t, List.isPrefixOf_iff_prefix.mp hp, (List.mem_tails _ _).mp ht⟩
  · rintro ⟨t, hp, ht⟩
    exact ⟨t, (List.mem_tails _ _).mpr ht, List.isPrefixOf_iff_prefix.mpr hp⟩

theorem includes_iff (s needle : String) :
    includes s needle = true ↔ needle.data <:+: s.data :=
  includesChars_iff _ _

theorem trimChars_eq (cs : List Char) :
    trimChars cs = (cs.dropWhile isJSWhitespace).rdropWhile isJSWhitespace := rfl

theorem trimChars_getLast (cs : List Char) (c : Char)
    (h : (trimChars cs).getLast? = some c) : isJSWhitespace c = false := by
  rw [trimChars_eq] at h
  have hne : (cs.dropWhile isJSWhitespace).rdropWhile isJSWhitespace ≠ [] := by
    intro h0
    rw [h0] at h
    simp at h
  have hl := List.rdropWhile_last_not isJSWhitespace (cs.dropWhile isJSWhitespace) hne
  rw [List.getLast?_eq_getLast _ hne] at h
  have hc : c = ((cs.dropWhile isJSWhitespace).rdropWhile isJSWhitespace).getLast hne :=
    (Option.some.inj h).symm
  rw [hc]
  simpa using hl

theorem trimChars_head (cs : List Char) (c : Char)
    (h : (trimChars cs).head? = some c) : isJSWhitespace c = false := by
  rw [trimChars_eq] at h
  obtain ⟨t, ht⟩ := List.rdropWhile_prefix isJSWhitespace (l := cs.dropWhile isJSWhitespace)
  have hd : (cs.dropWhile isJSWhitespace).head? = some c := by
    rw [← ht]
    cases hr : (cs.dropWhile isJSWhitespace).rdropWhile isJSWhitespace with
    | nil => rw [hr] at h; simp at h
    | cons a l => rw [hr] at h; simpa using h
  have := List.head?_dropWhile_not isJSWhitespace cs
  rw [hd] at this
  simpa using this

theorem dropWhile_eq_self_of_head {p : Char → Bool} (l : List Char)
    (h : ∀ c, l.head? = some c → p c = false) : l.dropWhile p = l := by
  cases l with
  | nil => rfl
  | cons a l =>
    have := h a rfl
    simp [List.dropWhile_cons, this]

theorem trimChars_idem (cs : List Char) : trimChars (trimChars cs) = trimChars cs := by
  have h1 : (trimChars cs).dropWhile isJSWhitespace = trimChars cs :=
    dropWhile_eq_self_of_head _ (trimChars_head cs)
  conv_lhs => rw [trimChars_eq, h1]
  rw [trimChars_eq]
  exact List.rdropWhile_idempotent _ _

theorem trim_idem (s : String) : trim (trim s) = trim s := by
  unfold trim
  simp only [trimChars_idem]

/-- A trimmed string neither starts nor ends with white space. -/
theorem trim_ends (s : String) :
    (∀ c, (trim s).data.head? = some c → isJSWhitespace c = false) ∧
    (∀ c, (trim s).data.getLast? = some c → isJSWhitespace c = false) :=
  ⟨trimChars_head s.data, trimChars_getLast s.data⟩

/-! ## Lemmas on set construction and the topics loop -/

theorem foldl_setAdd_nodup (xs : List String) :
    ∀ acc : List String, acc.Nodup → (xs.foldl setAdd acc).Nodup := by
  induction xs with
  | nil => intro acc h; exact h
  | cons x xs ih =>
    intro acc h
    apply ih
    unfold setAdd
    split
    · exact h
    · rename_i hx
      rw [List.nodup_append]
      refine ⟨h, List.nodup_singleton x, ?_⟩
      intro a ha hb
      rw [List.mem_singleton] at hb
      exact hx (hb ▸ ha)

theorem mem_foldl_setAdd (xs : List String) :
    ∀ (acc : List String) (y : String), y ∈ xs.foldl setAdd acc ↔ y ∈ acc ∨ y ∈ xs := by
  induction xs with
  | nil => intro acc y; simp
  | cons x xs ih =>
    intro acc y
    rw [List.foldl_cons, ih]
    unfold setAdd
    split
    · rename_i hx
      constructor
      · rintro (h | h)
        · exact Or.inl h
        · exact Or.inr (List.mem_cons_of_mem _ h)
      · rintro (h | h)
        · exact Or.inl h
        · rcases List.mem_cons.mp h with h | h
          · exact Or.inl (h ▸ hx)
          · exact Or.inr h
    · simp only [List.mem_append, List.mem_singleton, List.mem_cons]
      tauto

theorem arrayFromSet_nodup (xs : List String) : (arrayFromSet xs).Nodup :=
  foldl_setAdd_nodup xs [] List.nodup_nil

theorem mem_arrayFromSet (xs : List String) (y : String) : y ∈ arrayFromSet xs ↔ y ∈ xs := by
  unfold arrayFromSet
  rw [mem_foldl_setAdd]
  simp

theorem mem_foldl_pushTopic (xs : List String) :
    ∀ (acc : List String) (t : String),
      t ∈ xs.foldl pushTopic acc ↔ t ∈ acc ∨ (t ≠ "" ∧ ∃ x ∈ xs, trim x = t) := by
  induction xs with
  | nil => intro acc t; simp
  | cons x xs ih =>
    intro acc t
    rw [List.foldl_cons, ih]
    unfold pushTopic
    by_cases hx : trim x = ""
    · simp only [hx, ne_eq, not_true_eq_false, if_false, List.mem_cons, exists_eq_or_imp]
      constructor
      · rintro (h | ⟨h1, h2⟩)
        · exact Or.inl h
        · exact Or.inr ⟨h1, Or.inr h2⟩
      · rintro (h | ⟨h1, h2 | h2⟩)
        · exact Or.inl h
        · exact absurd h2.symm h1
        · exact Or.inr ⟨h1, h2⟩
    · simp only [hx, ne_eq, not_false_eq_true, if_true, List.mem_append, List.mem_singleton,
        List.mem_cons, exists_eq_or_imp, List.not_mem_nil, or_false]
      constructor
      · rintro ((h | h) | ⟨h1, h2⟩)
        · exact Or.inl h
        · exact Or.inr ⟨h ▸ hx, Or.inl h.symm⟩
        · exact Or.inr ⟨h1, Or.inr h2⟩
      · rintro (h | ⟨h1, h2 | h2⟩)
        · exact Or.inl (Or.inl h)
        · exact Or.inl (Or.inr h2.symm)
        · exact Or.inr ⟨h1, h2⟩

theorem mem_cheerioTopics (p : CheerioPage) (t : String) :
    t ∈ cheerioTopics p ↔ t ≠ "" ∧ ∃ x ∈ p.topicTexts, trim x = t := by
  unfold cheerioTopics
  rw [mem_foldl_pushTopic]
  simp

theorem foldl_pushTopicEl (els : List (Option String)) :
    ∀ acc : List String,
      els.foldl pushTopicEl acc = (els.map textOrEmpty).foldl pushTopic acc := by
  induction els with
  | nil => intro acc; rfl
  | cons e els ih => intro acc; simp only [List.foldl_cons, List.map_cons, ih]; rfl

theorem mem_playwrightTopics (p : PlaywrightPage) (t : String) :
    t ∈ playwrightTopics p ↔
      t ≠ "" ∧ ∃ el ∈ p.topicElements.getD [], trim (textOrEmpty el) = t := by
  unfold playwrightTopics
  rw [foldl_pushTopicEl, mem_foldl_pushTopic]
  simp

/-! ## Scope filter -/

/-- C1, counterexample: with seed host `a.example.com` and `followInternalOnly`
true, the link `https://b.other.com/?ref=substack.com` is let through although its
host `b.other.com` differs from the seed host and is outside the `substack.com`
family; the text `substack.com` in its query is enough. -/
theorem scope_filter_counterexample :
    seedHost whatwg seedA = some "a.example.com" ∧
    (whatwg.parse "https://b.other.com/?ref=substack.com").map (fun u => u.host)
      = some "b.other.com" ∧
    ("b.other.com" ≠ "a.example.com" ∧ specInSubstackFamily "b.other.com" = false) ∧
    transformRequestFunction whatwg true seedA ⟨"https://b.other.com/?ref=substack.com"⟩
      = some ⟨"https://b.other.com/?ref=substack.com"⟩ := by
  decide

/-- C1, amended: when the seed host is known and the candidate URL parses, with
`followInternalOnly` true the candidate is returned exactly when its host equals
the seed host or its URL text contains `substack.com`, and `null` is returned
otherwise; with `followInternalOnly` false the candidate is always returned. -/
theorem scope_filter_rule (U : URLApi) (request : Request) (r : RequestOptions)
    (sh : String) (u : URLRecord)
    (hseed : seedHost U request = some sh) (hparse : U.parse r.url = some u) :
    (transformRequestFunction U true request r = some r ↔
      (u.host = sh ∨ includes r.url "substack.com" = true)) ∧
    (transformRequestFunction U true request r = none ↔
      ¬ (u.host = sh ∨ includes r.url "substack.com" = true)) ∧
    transformRequestFunction U false request r = some r := by
  have key : transformRequestFunction U true request r =
      if u.host ≠ sh && !(includes r.url "substack.com") then none else some r := by
    simp only [transformRequestFunction, hseed, hparse, if_true]
  refine ⟨?_, ?_, by simp [transformRequestFunction]⟩
  · rw [key]
    by_cases h1 : u.host = sh <;> cases h2 : includes r.url "substack.com" <;> simp [h1]
  · rw [key]
    by_cases h1 : u.host = sh <;> cases h2 : includes r.url "substack.com" <;> simp [h1]

/-- Instance of the scope rule at seed host `a.example.com`: the link
`https://a.example.com/p/1` is accepted, and the link `https://b.other.com/x?y=1`,
which nowhere contains `substack.com`, is rejected. -/
theorem scope_filter_rule_witness :
    (seedHost whatwg seedA = some "a.example.com" ∧
      whatwg.parse "https://a.example.com/p/1"
        = some ⟨"https:", "a.example.com", "https://a.example.com/p/1"⟩ ∧
      transformRequestFunction whatwg true seedA ⟨"https://a.example.com/p/1"⟩
        = some ⟨"https://a.example.com/p/1"⟩) ∧
    (whatwg.parse "https://b.other.com/x?y=1"
        = some ⟨"https:", "b.other.com", "https://b.other.com/x?y=1"⟩ ∧
      transformRequestFunction whatwg true seedA ⟨"https://b.other.com/x?y=1"⟩ = none) :=
  ⟨⟨by decide, by decide,
    (scope_filter_rule whatwg seedA ⟨"https://a.example.com/p/1"⟩ "a.example.com"
      ⟨"https:", "a.example.com", "https://a.example.com/p/1"⟩ (by decide) (by decide)).1.mpr
      (Or.inl rfl)⟩,
   ⟨by decide,
    (scope_filter_rule whatwg seedA ⟨"https://b.other.com/x?y=1"⟩ "a.example.com"
      ⟨"https:", "b.other.com", "https://b.other.com/x?y=1"⟩ (by decide) (by decide)).2.1.mpr
      (by decide)⟩⟩

/-- C2, counterexample: the candidate `not a url` cannot be parsed, and with
`followInternalOnly` true the filter returns it instead of `null`. -/
theorem malformed_candidate_counterexample :
    whatwg.parse "not a url" = none ∧
    transformRequestFunction whatwg true seedA ⟨"not a url"⟩ = some ⟨"not a url"⟩ := by
  decide

/-- C2, amended: a candidate whose URL cannot be parsed is returned unchanged
(accepted), whatever `followInternalOnly` and the seed host are. -/
theorem malformed_candidate_accepted (U : URLApi) (followInternalOnly : Bool)
    (request : Request) (r : RequestOptions) (h : U.parse r.url = none) :
    transformRequestFunction U followInternalOnly request r = some r := by
  unfold transformRequestFunction
  cases followInternalOnly with
  | false => simp
  | true =>
    simp only [if_true]
    cases seedHost U request with
    | none => rfl
    | some sh => simp only [h]

/-- Instance of the amended C2 at the candidate `https://bad host/x`, with the
filter switched on and switched off. -/
theorem malformed_candidate_accepted_witness :
    whatwg.parse "https://bad host/x" = none ∧
    transformRequestFunction whatwg true seedA ⟨"https://bad host/x"⟩
      = some ⟨"https://bad host/x"⟩ ∧
    transformRequestFunction whatwg false seedA ⟨"https://bad host/x"⟩
      = some ⟨"https://bad host/x"⟩ :=
  ⟨by decide,
   malformed_candidate_accepted whatwg true seedA ⟨"https://bad host/x"⟩ (by decide),
   malformed_candidate_accepted whatwg false seedA ⟨"https://bad host/x"⟩ (by decide)⟩

/-! ## Topics -/

theorem topics_law (raw : List String) (src : String → Prop)
    (hsrc : ∀ t, t ∈ raw ↔ t ≠ "" ∧ ∃ x, src x ∧ trim x = t) :
    ((arrayFromSet raw).map trim).Nodup ∧
    (∀ t ∈ arrayFromSet raw, t ≠ "" ∧ trim t = t ∧ ∃ x, src x ∧ trim x = t) ∧
    (∀ x, src x → trim x ≠ "" → trim x ∈ arrayFromSet raw) := by
  have hfix : ∀ t ∈ arrayFromSet raw, trim t = t := by
    intro t ht
    obtain ⟨_, x, _, hx⟩ := (hsrc t).mp ((mem_arrayFromSet raw t).mp ht)
    rw [← hx, trim_idem]
  refine ⟨?_, ?_, ?_⟩
  · rw [List.map_congr_left hfix, List.map_id']
    exact arrayFromSet_nodup raw
  · intro t ht
    obtain ⟨hne, hx⟩ := (hsrc t).mp ((mem_arrayFromSet raw t).mp ht)
    exact ⟨hne, hfix t ht, hx⟩
  · intro x hx hne
    exact (mem_arrayFromSet raw _).mpr ((hsrc _).mpr ⟨hne, x, hx, rfl⟩)

theorem mem_playwrightTopics_raw (p : PlaywrightPage) (t : String) :
    t ∈ playwrightTopics p ↔
      t ≠ "" ∧ ∃ els s, p.topicElements = some els ∧ some s ∈ els ∧ trim s = t := by
  rw [mem_playwrightTopics]
  constructor
  · rintro ⟨hne, el, hel, ht⟩
    refine ⟨hne, ?_⟩
    cases hp : p.topicElements with
    | none => rw [hp] at hel; simp at hel
    | some els =>
      rw [hp] at hel
      cases el with
      | none =>
        have h0 : trim (textOrEmpty none) = "" := by decide
        exact absurd (ht.symm.trans h0) hne
      | some s => exact ⟨els, s, rfl, hel, ht⟩
  · rintro ⟨hne, els, s, hp, hel, ht⟩
    refine ⟨hne, some s, ?_, ht⟩
    rw [hp]
    exact hel

/-- C3: in the record of either extractor the `topics` array has no two entries
equal after trimming; every entry is non-empty, equal to its own trimming, and
the trimmed text of some matched element; and the trimmed text of every matched
element appears in it when it is non-empty.  In rendered mode the matched
elements are those of the resolved `all()` answer and their texts are the
resolved `innerText()` answers. -/
theorem topics_dedup (U : URLApi) (request : Request) (now : String) :
    (∀ p : CheerioPage, ∃ ts : List String,
      (extractNewsletterFromCheerio U request p now).get "topics" = some (.arr ts) ∧
      (ts.map trim).Nodup ∧
      (∀ t ∈ ts, t ≠ "" ∧ trim t = t ∧ ∃ x ∈ p.topicTexts, trim x = t) ∧
      (∀ x ∈ p.topicTexts, trim x ≠ "" → trim x ∈ ts)) ∧
    (∀ p : PlaywrightPage, ∃ ts : List String,
      (extractNewsletterFromPlaywright U request p now).get "topics" = some (.arr ts) ∧
      (ts.map trim).Nodup ∧
      (∀ t ∈ ts, t ≠ "" ∧ trim t = t ∧
        ∃ els s, p.topicElements = some els ∧ some s ∈ els ∧ trim s = t) ∧
      (∀ els s, p.topicElements = some els → some s ∈ els → trim s ≠ "" → trim s ∈ ts)) := by
  constructor
  · intro p
    refine ⟨arrayFromSet (cheerioTopics p), rfl, ?_⟩
    have h := topics_law (cheerioTopics p) (fun x => x ∈ p.topicTexts)
      (fun t => mem_cheerioTopics p t)
    exact ⟨h.1, h.2.1, h.2.2⟩
  · intro p
    refine ⟨arrayFromSet (playwrightTopics p), rfl, ?_⟩
    have h := topics_law (playwrightTopics p)
      (fun x => ∃ els, p.topicElements = some els ∧ some x ∈ els) (by
      intro t
      rw [mem_playwrightTopics_raw]
      constructor
      · rintro ⟨hne, els, x, hp, hel, ht⟩
        exact ⟨hne, x, ⟨els, hp, hel⟩, ht⟩
      · rintro ⟨hne, x, ⟨els, hp, hel⟩, ht⟩
        exact ⟨hne, els, x, hp, hel, ht⟩)
    refine ⟨h.1, ?_, ?_⟩
    · intro t ht
      obtain ⟨a, b, x, ⟨els, hp, hel⟩, hxt⟩ := h.2.1 t ht
      exact ⟨a, b, els, x, hp, hel, hxt⟩
    · intro els x hp hel hne
      exact h.2.2 x ⟨els, hp, hel⟩ hne

/-! ## Field fallback chains -/

theorem or_str (s : String) (b : JSVal) :
    (JSVal.str s).or b = if s ≠ "" then JSVal.str s else b := by
  by_cases h : s = "" <;> simp [JSVal.or, JSVal.truthy, h]

theorem or_attrVal (a : Option String) (b : JSVal) :
    (attrVal a).or b = if attrText a ≠ "" then JSVal.str (attrText a) else b := by
  cases a with
  | none => simp [attrVal, attrText, JSVal.or, JSVal.truthy]
  | some s => by_cases h : s = "" <;> simp [attrVal, attrText, JSVal.or, JSVal.truthy, h]

theorem chain3 (a b c : String) :
    (if a ≠ "" then JSVal.str a else if b ≠ "" then JSVal.str b else
      if c ≠ "" then JSVal.str c else JSVal.str "") = JSVal.str (firstNonEmpty [a, b, c]) := by
  by_cases ha : a = "" <;> by_cases hb : b = "" <;> by_cases hc : c = "" <;>
    simp [firstNonEmpty, ha, hb, hc]

theorem or_assoc (a b c : JSVal) : (a.or b).or c = a.or (b.or c) := by
  unfold JSVal.or
  by_cases ha : a.truthy = true <;> simp [ha]

theorem firstNonEmpty_mem (l : List String) : firstNonEmpty l ≠ "" → firstNonEmpty l ∈ l := by
  induction l with
  | nil => intro h; exact absurd rfl h
  | cons s rest ih =>
    intro h
    unfold firstNonEmpty at h ⊢
    by_cases hs : s = ""
    · simp only [hs, ne_eq, not_true_eq_false, if_false] at h ⊢
      exact List.mem_cons_of_mem _ (ih h)
    · simp [hs]

theorem cheerioTitle_eq (p : CheerioPage) : cheerioTitle p
    = .str (firstNonEmpty [trim p.h1Text, attrText p.ogTitle, trim p.titleText]) := by
  unfold cheerioTitle
  rw [or_assoc, or_assoc, or_str, or_attrVal, or_str, chain3]

theorem cheerioAuthor_eq (p : CheerioPage) : cheerioAuthor p = .str (firstNonEmpty
    [trim p.publisherNameText, trim p.postLinkText, attrText p.metaAuthor]) := by
  unfold cheerioAuthor
  rw [or_assoc, or_assoc, or_str, or_str, or_attrVal, chain3]

theorem cheerioDescription_eq (p : CheerioPage) : cheerioDescription p = .str (firstNonEmpty
    [attrText p.ogDescription, attrText p.metaDescription, trim p.subtitleText]) := by
  unfold cheerioDescription
  rw [or_assoc, or_assoc, or_attrVal, or_attrVal, or_str, chain3]

/-- C4, counterexample: with an empty `h1`, a page title `My Newsletter` and an
`og:title` content of one space, `title` is the one-space string, which is
white space only, while the claimed value is `My Newsletter`. -/
theorem field_fallback_counterexample :
    (extractNewsletterFromCheerio whatwg seedA
        { blankPage with ogTitle := some " ", titleText := "My Newsletter" } "").get "title"
      = some (.str " ") ∧
    trim " " = "" ∧
    specFirstNonBlank ["", " ", "My Newsletter"] = "My Newsletter" := by
  decide

/-- C4, amended: each of `title`, `author`, `description` is the first non-empty
value in its documented order, where an element text is taken trimmed and a meta
`content` attribute is taken as it stands (missing counts as empty), and is the
empty string when there is none; so a field that is not equal to its own
trimming is the verbatim value of one of its meta attributes. -/
theorem field_fallback (U : URLApi) (request : Request) (p : CheerioPage) (now : String) :
    ((extractNewsletterFromCheerio U request p now).get "title"
        = some (.str (firstNonEmpty [trim p.h1Text, attrText p.ogTitle, trim p.titleText])) ∧
      (extractNewsletterFromCheerio U request p now).get "author"
        = some (.str (firstNonEmpty
            [trim p.publisherNameText, trim p.postLinkText, attrText p.metaAuthor])) ∧
      (extractNewsletterFromCheerio U request p now).get "description"
        = some (.str (firstNonEmpty
            [attrText p.ogDescription, attrText p.metaDescription, trim p.subtitleText]))) ∧
    (∀ v, (extractNewsletterFromCheerio U request p now).get "title" = some (.str v) →
      trim v ≠ v → p.ogTitle = some v) ∧
    (∀ v, (extractNewsletterFromCheerio U request p now).get "author" = some (.str v) →
      trim v ≠ v → p.metaAuthor = some v) ∧
    (∀ v, (extractNewsletterFromCheerio U request p now).get "description" = some (.str v) →
      trim v ≠ v → p.ogDescription = some v ∨ p.metaDescription = some v) := by
  have ht := cheerioTitle_eq p
  have ha := cheerioAuthor_eq p
  have hd := cheerioDescription_eq p
  have hattr : ∀ (a : Option String) (v : String), v = attrText a → trim v ≠ v →
      a = some v := by
    intro a v hv hne
    cases a with
    | none => exact absurd (by rw [hv]; decide) hne
    | some s => rw [hv]; rfl
  have hmem : ∀ (l : List String) (v : String), v = firstNonEmpty l → trim v ≠ v → v ∈ l := by
    intro l v hv hne
    rw [hv]
    apply firstNonEmpty_mem
    intro h0
    apply hne
    rw [hv, h0]
    decide
  refine ⟨⟨congrArg some ht, congrArg some ha, congrArg some hd⟩, ?_, ?_, ?_⟩
  · intro v hv hne
    have hv1 : cheerioTitle p = .str v := Option.some.inj hv
    have hv2 := JSVal.str.inj (hv1.symm.trans ht)
    have := hmem _ v hv2 hne
    simp only [List.mem_cons, List.mem_singleton, List.not_mem_nil, or_false] at this
    rcases this with h | h | h
    · exact absurd (by rw [h, trim_idem]) hne
    · exact hattr _ v h hne
    · exact absurd (by rw [h, trim_idem]) hne
  · intro v hv hne
    have hv1 : cheerioAuthor p = .str v := Option.some.inj hv
    have hv2 := JSVal.str.inj (hv1.symm.trans ha)
    have := hmem _ v hv2 hne
    simp only [List.mem_cons, List.mem_singleton, List.not_mem_nil, or_false] at this
    rcases this with h | h | h
    · exact absurd (by rw [h, trim_idem]) hne
    · exact absurd (by rw [h, trim_idem]) hne
    · exact hattr _ v h hne
  · intro v hv hne
    have hv1 : cheerioDescription p = .str v := Option.some.inj hv
    have hv2 := JSVal.str.inj (hv1.symm.trans hd)
    have := hmem _ v hv2 hne
    simp only [List.mem_cons, List.mem_singleton, List.not_mem_nil, or_false] at this
    rcases this with h | h | h
    · exact Or.inl (hattr _ v h hne)
    · exact Or.inr (hattr _ v h hne)
    · exact absurd (by rw [h, trim_idem]) hne

/-! ## Record shape -/

theorem isStr_or_empty_of_attr (a : Option (Option String)) :
    IsStr ((attrOrEmpty a).or (.str "")) := by
  rcases a with _ | _ | s
  · exact ⟨"", by simp [attrOrEmpty, JSVal.or, JSVal.truthy]⟩
  · exact ⟨"", by simp [attrOrEmpty, JSVal.or, JSVal.truthy]⟩
  · by_cases h : s = ""
    · exact ⟨"", by simp [attrOrEmpty, JSVal.or, JSVal.truthy, h]⟩
    · exact ⟨s, by simp [attrOrEmpty, JSVal.or, JSVal.truthy, h]⟩

theorem isStr_or (a b : JSVal) (ha : IsStr a ∨ a.truthy = false) (hb : IsStr b) :
    IsStr (a.or b) := by
  unfold JSVal.or
  by_cases h : a.truthy = true
  · rw [if_pos h]
    rcases ha with ha | ha
    · exact ha
    · rw [ha] at h; exact absurd h (by decide)
  · rw [if_neg h]; exact hb

theorem attrVal_cases (a : Option String) : IsStr (attrVal a) ∨ (attrVal a).truthy = false := by
  cases a with
  | none => exact Or.inr rfl
  | some s => exact Or.inl ⟨s, rfl⟩

theorem attrOrEmpty_cases (a : Option (Option String)) :
    IsStr (attrOrEmpty a) ∨ (attrOrEmpty a).truthy = false := by
  rcases a with _ | _ | s
  · exact Or.inl ⟨"", rfl⟩
  · exact Or.inr rfl
  · exact Or.inl ⟨s, rfl⟩

theorem rssStep_isStr (U : URLApi) (url : String) (rss : JSVal) (a : Option String)
    (h : IsStr rss) : IsStr (rssStep U url rss (attrVal a)) := by
  unfold rssStep
  split
  · cases hr : U.resolve (attrVal a).toStr url with
    | some u => exact ⟨u.href, rfl⟩
    | none =>
      cases a with
      | none => rename_i hc; simp [attrVal, JSVal.truthy] at hc
      | some s => exact ⟨s, rfl⟩
  · exact h

theorem foldl_rssStep_isStr (U : URLApi) (url : String) (hrefs : List (Option String)) :
    ∀ rss : JSVal, IsStr rss → IsStr ((hrefs.map attrVal).foldl (rssStep U url) rss) := by
  induction hrefs with
  | nil => intro rss h; exact h
  | cons a rest ih =>
    intro rss h
    exact ih _ (rssStep_isStr U url rss a h)

theorem rssFallback_isStr (U : URLApi) (url : String) (rss : JSVal) (h : IsStr rss) :
    IsStr (rssFallback U url rss) := by
  unfold rssFallback
  split
  · cases U.parse url with
    | none => exact h
    | some u =>
      simp only
      split
      · exact ⟨_, rfl⟩
      · exact h
  · exact h

theorem cheerioRss_isStr (U : URLApi) (url : String) (p : CheerioPage) :
    IsStr (cheerioRss U url p) :=
  rssFallback_isStr U url _ (foldl_rssStep_isStr U url p.feedHrefs _ ⟨"", rfl⟩)

theorem latestPostOf_isStr (U : URLApi) (url : String) (t l : JSVal) (ht : IsStr t) :
    IsStr (latestPostOf U url t l) := by
  unfold latestPostOf
  split
  · split
    · cases U.resolve l.toStr url with
      | some u => exact ⟨_, rfl⟩
      | none => exact ht
    · exact ⟨_, rfl⟩
  · exact ⟨_, rfl⟩

theorem subscribers_isStr (text : String) :
    IsStr (match subscribersMatch text with
      | some m => JSVal.str m
      | none => JSVal.str "") := by
  cases subscribersMatch text with
  | none => exact ⟨_, rfl⟩
  | some m => exact ⟨_, rfl⟩

theorem foldl_rssStep_falsy (U : URLApi) (url : String) (hrefs : List (Option String))
    (h : ∀ s, some s ∈ hrefs → s = "") :
    ∀ rss : JSVal, (hrefs.map attrVal).foldl (rssStep U url) rss = rss := by
  induction hrefs with
  | nil => intro rss; rfl
  | cons a rest ih =>
    intro rss
    rw [List.map_cons, List.foldl_cons]
    have hstep : rssStep U url rss (attrVal a) = rss := by
      unfold rssStep
      cases a with
      | none => simp [attrVal, JSVal.truthy]
      | some s =>
        have hs : s = "" := h s (List.mem_cons_self _ _)
        simp [attrVal, JSVal.truthy, hs]
    rw [hstep]
    exact ih (fun s hs => h s (List.mem_cons_of_mem _ hs)) rss

theorem cheerioRss_unresolved (U : URLApi) (url : String) (p : CheerioPage)
    (hlinks : ∀ s, some s ∈ p.feedHrefs → s = "")
    (hhost : ∀ u, U.parse url = some u → endsWith u.host "substack.com" = false) :
    cheerioRss U url p = .str "" := by
  unfold cheerioRss rssScan
  rw [foldl_rssStep_falsy U url p.feedHrefs hlinks]
  unfold rssFallback
  cases hp : U.parse url with
  | none => simp [JSVal.truthy]
  | some u => simp [JSVal.truthy, hhost u hp]

theorem latestPostOf_unresolved (U : URLApi) (url : String) (t : String) (l : JSVal)
    (ht : trim t = "") :
    latestPostOf U url ((JSVal.str (trim t)).or (.str "")) l = .str "" := by
  rw [ht]
  simp [latestPostOf, JSVal.or, JSVal.truthy]

theorem attrText_unresolved (a : Option String) (h : ∀ s, a = some s → s = "") :
    attrText a = "" := by
  cases a with
  | none => rfl
  | some s => exact h s rfl

theorem textOrEmpty_unresolved (a : Option String) (h : ∀ s, a = some s → s = "") :
    textOrEmpty a = "" := by
  cases a with
  | none => rfl
  | some s => exact h s rfl

theorem attrOrEmpty_unresolved (a : Option (Option String))
    (h : ∀ s, a = some (some s) → s = "") (b : JSVal) : (attrOrEmpty a).or b = b := by
  rcases a with _ | _ | s
  · simp [attrOrEmpty, JSVal.or, JSVal.truthy]
  · simp [attrOrEmpty, JSVal.or, JSVal.truthy]
  · have hs : s = "" := h s rfl
    simp [attrOrEmpty, JSVal.or, JSVal.truthy, hs]

theorem str_or_unresolved (s : String) (h : s = "") (b : JSVal) : (JSVal.str s).or b = b := by
  simp [JSVal.or, JSVal.truthy, h]

/-- C6: the record built by either extractor has exactly the nine keys `title`,
`author`, `description`, `topics`, `rss`, `latest_post`, `subscribers`,
`substack_url`, `extracted_at`, and under each of `title`, `author`,
`description`, `rss`, `latest_post`, `subscribers` it holds a string, whatever the
page queries answer (missing attributes, `null`, rejected locator calls); a
field none of whose sources yields a value is the empty string. -/
theorem record_well_formed (U : URLApi) (request : Request) (now : String) :
    (∀ p : CheerioPage,
      (extractNewsletterFromCheerio U request p now).keys = recordKeys ∧
      (∀ k ∈ stringKeys, ∃ s : String,
        (extractNewsletterFromCheerio U request p now).get k = some (.str s)) ∧
      (trim p.h1Text = "" → (∀ s, p.ogTitle = some s → s = "") → trim p.titleText = "" →
        (extractNewsletterFromCheerio U request p now).get "title" = some (.str "")) ∧
      (trim p.publisherNameText = "" → trim p.postLinkText = "" →
        (∀ s, p.metaAuthor = some s → s = "") →
        (extractNewsletterFromCheerio U request p now).get "author" = some (.str "")) ∧
      ((∀ s, p.ogDescription = some s → s = "") → (∀ s, p.metaDescription = some s → s = "") →
        trim p.subtitleText = "" →
        (extractNewsletterFromCheerio U request p now).get "description" = some (.str "")) ∧
      ((∀ s, some s ∈ p.feedHrefs → s = "") →
        (∀ u, U.parse (pageUrl request) = some u → endsWith u.host "substack.com" = false) →
        (extractNewsletterFromCheerio U request p now).get "rss" = some (.str "")) ∧
      (trim p.latestHeadingText = "" →
        (extractNewsletterFromCheerio U request p now).get "latest_post" = some (.str "")) ∧
      (subscribersMatch p.bodyText = none →
        (extractNewsletterFromCheerio U request p now).get "subscribers" = some (.str ""))) ∧
    (∀ p : PlaywrightPage,
      (extractNewsletterFromPlaywright U request p now).keys = recordKeys ∧
      (∀ k ∈ stringKeys, ∃ s : String,
        (extractNewsletterFromPlaywright U request p now).get k = some (.str s)) ∧
      ((∀ s, p.h1InnerText = some s → s = "") → (∀ s, p.title = some s → s = "") →
        (extractNewsletterFromPlaywright U request p now).get "title" = some (.str "")) ∧
      ((∀ s, p.publisherNameInnerText = some s → s = "") →
        (∀ s, p.metaAuthor = some (some s) → s = "") →
        (extractNewsletterFromPlaywright U request p now).get "author" = some (.str "")) ∧
      ((∀ s, p.ogDescription = some (some s) → s = "") →
        (∀ s, p.metaDescription = some (some s) → s = "") →
        (extractNewsletterFromPlaywright U request p now).get "description"
          = some (.str "")) ∧
      ((∀ s, p.feedHref = some (some s) → s = "") →
        (extractNewsletterFromPlaywright U request p now).get "rss" = some (.str "")) ∧
      ((∀ s, p.latestHeadingInnerText = some s → trim s = "") →
        (extractNewsletterFromPlaywright U request p now).get "latest_post"
          = some (.str "")) ∧
      ((∀ s, p.content = some s → subscribersMatch s = none) →
        (extractNewsletterFromPlaywright U request p now).get "subscribers"
          = some (.str ""))) := by
  constructor
  · intro p
    refine ⟨rfl, ?_, ?_, ?_, ?_, ?_, ?_, ?_⟩
    · intro k hk
      simp only [stringKeys, List.mem_cons, List.mem_singleton, List.not_mem_nil, or_false] at hk
      rcases hk with rfl | rfl | rfl | rfl | rfl | rfl
      · exact ⟨_, congrArg some (cheerioTitle_eq p)⟩
      · exact ⟨_, congrArg some (cheerioAuthor_eq p)⟩
      · exact ⟨_, congrArg some (cheerioDescription_eq p)⟩
      · obtain ⟨s, hs⟩ := cheerioRss_isStr U (pageUrl request) p
        exact ⟨s, congrArg some hs⟩
      · obtain ⟨s, hs⟩ := latestPostOf_isStr U (pageUrl request)
          ((JSVal.str (trim p.latestHeadingText)).or (.str "")) ((attrVal p.latestHref).or (.str ""))
          (isStr_or _ _ (Or.inl ⟨_, rfl⟩) ⟨_, rfl⟩)
        exact ⟨s, congrArg some hs⟩
      · obtain ⟨s, hs⟩ := isStr_or (cheerioSubscribers p) (.str "")
          (Or.inl (subscribers_isStr p.bodyText)) ⟨_, rfl⟩
        exact ⟨s, congrArg some hs⟩
    · intro h1 h2 h3
      refine congrArg some ?_
      rw [cheerioTitle_eq, h1, attrText_unresolved _ h2, h3]
      rfl
    · intro h1 h2 h3
      refine congrArg some ?_
      rw [cheerioAuthor_eq, h1, h2, attrText_unresolved _ h3]
      rfl
    · intro h1 h2 h3
      refine congrArg some ?_
      rw [cheerioDescription_eq, attrText_unresolved _ h1, attrText_unresolved _ h2, h3]
      rfl
    · intro h1 h2
      exact congrArg some (cheerioRss_unresolved U (pageUrl request) p h1 h2)
    · intro h1
      exact congrArg some (latestPostOf_unresolved U (pageUrl request) _ _ h1)
    · intro h1
      refine congrArg some ?_
      unfold cheerioSubscribers
      rw [h1]
      rfl
  · intro p
    refine ⟨rfl, ?_, ?_, ?_, ?_, ?_, ?_, ?_⟩
    · intro k hk
      simp only [stringKeys, List.mem_cons, List.mem_singleton, List.not_mem_nil, or_false] at hk
      rcases hk with rfl | rfl | rfl | rfl | rfl | rfl
      · obtain ⟨s, hs⟩ := isStr_or (JSVal.str (textOrEmpty p.h1InnerText))
          (.str (textOrEmpty p.title)) (Or.inl ⟨_, rfl⟩) ⟨_, rfl⟩
        exact ⟨s, congrArg some hs⟩
      · obtain ⟨s, hs⟩ := isStr_or
          ((JSVal.str (textOrEmpty p.publisherNameInnerText)).or (attrOrEmpty p.metaAuthor))
          (.str "")
          (by
            rcases attrOrEmpty_cases p.metaAuthor with h | h
            · exact Or.inl (isStr_or _ _ (Or.inl ⟨_, rfl⟩) h)
            · by_cases ht : (JSVal.str (textOrEmpty p.publisherNameInnerText)).truthy = true
              · exact Or.inl ⟨_, by unfold JSVal.or; rw [if_pos ht]⟩
              · exact Or.inr (by unfold JSVal.or; rw [if_neg ht]; exact h))
          ⟨_, rfl⟩
        exact ⟨s, congrArg some hs⟩
      · obtain ⟨s, hs⟩ := isStr_or
          ((attrOrEmpty p.ogDescription).or (attrOrEmpty p.metaDescription)) (.str "")
          (by
            rcases attrOrEmpty_cases p.metaDescription with h | h
            · exact Or.inl (isStr_or _ _ (attrOrEmpty_cases _) h)
            · by_cases ht : (attrOrEmpty p.ogDescription).truthy = true
              · rcases attrOrEmpty_cases p.ogDescription with h1 | h1
                · exact Or.inl (by unfold JSVal.or; rw [if_pos ht]; exact h1)
                · rw [h1] at ht; exact absurd ht (by decide)
              · exact Or.inr (by unfold JSVal.or; rw [if_neg ht]; exact h))
          ⟨_, rfl⟩
        exact ⟨s, congrArg some hs⟩
      · obtain ⟨s, hs⟩ := isStr_or_empty_of_attr p.feedHref
        exact ⟨s, congrArg some hs⟩
      · obtain ⟨s, hs⟩ := latestPostOf_isStr U (pageUrl request)
          ((JSVal.str (trim (textOrEmpty p.latestHeadingInnerText))).or (.str ""))
          ((attrOrEmpty p.latestHref).or (.str ""))
          (isStr_or _ _ (Or.inl ⟨_, rfl⟩) ⟨_, rfl⟩)
        exact ⟨s, congrArg some hs⟩
      · obtain ⟨s, hs⟩ := subscribers_isStr
          ((JSVal.str (textOrEmpty p.content)).or (.str "")).toStr
        exact ⟨s, congrArg some hs⟩
    · intro h1 h2
      refine congrArg some ?_
      unfold playwrightTitle
      rw [textOrEmpty_unresolved _ h1, textOrEmpty_unresolved _ h2]
      rfl
    · intro h1 h2
      refine congrArg some ?_
      unfold playwrightAuthor
      rw [textOrEmpty_unresolved _ h1, str_or_unresolved "" rfl, attrOrEmpty_unresolved _ h2]
    · intro h1 h2
      refine congrArg some ?_
      unfold playwrightDescription
      rw [attrOrEmpty_unresolved _ h1, attrOrEmpty_unresolved _ h2]
    · intro h1
      refine congrArg some ?_
      unfold playwrightRss
      rw [attrOrEmpty_unresolved _ h1]
    · intro h1
      refine congrArg some ?_
      have ht : trim (textOrEmpty p.latestHeadingInnerText) = "" := by
        cases hp : p.latestHeadingInnerText with
        | none => decide
        | some s => exact h1 s hp
      exact latestPostOf_unresolved U (pageUrl request) _ _ ht
    · intro h1
      refine congrArg some ?_
      unfold playwrightSubscribers
      have hm : subscribersMatch ((JSVal.str (textOrEmpty p.content)).or (.str "")).toStr
          = none := by
        cases hp : p.content with
        | none => decide
        | some s =>
          by_cases hs : s = ""
          · rw [hs]; decide
          · have := h1 s hp
            simpa [textOrEmpty, JSVal.or, JSVal.truthy, hs, JSVal.toStr] using this
      rw [hm]

/-- Instance of C6 on pages where every query comes back empty, at
`https://a.example.com/`: the six string fields are the empty string in both
modes. -/
theorem record_well_formed_witness :
    (∀ k ∈ stringKeys,
      (extractNewsletterFromCheerio whatwg seedA blankPage "").get k = some (.str "")) ∧
    (∀ k ∈ stringKeys,
      (extractNewsletterFromPlaywright whatwg seedA blankRendered "").get k
        = some (.str "")) := by
  have hc := ((record_well_formed whatwg seedA "").1 blankPage).2.2
  have hp := ((record_well_formed whatwg seedA "").2 blankRendered).2.2
  constructor
  · intro k hk
    simp only [stringKeys, List.mem_cons, List.mem_singleton, List.not_mem_nil, or_false] at hk
    rcases hk with rfl | rfl | rfl | rfl | rfl | rfl
    · exact hc.1 (by decide) (by intro s h; cases h) (by decide)
    · exact hc.2.1 (by decide) (by decide) (by intro s h; cases h)
    · exact hc.2.2.1 (by intro s h; cases h) (by intro s h; cases h) (by decide)
    · exact hc.2.2.2.1 (by intro s h; cases h) (by
        intro u hu
        have hu2 : u = ⟨"https:", "a.example.com", "https://a.example.com/"⟩ :=
          (Option.some.inj ((by decide : whatwg.parse (pageUrl seedA)
            = some ⟨"https:", "a.example.com", "https://a.example.com/"⟩).symm.trans hu)).symm
        rw [hu2]
        decide)
    · exact hc.2.2.2.2.1 (by decide)
    · exact hc.2.2.2.2.2 (by decide)
  · intro k hk
    simp only [stringKeys, List.mem_cons, List.mem_singleton, List.not_mem_nil, or_false] at hk
    rcases hk with rfl | rfl | rfl | rfl | rfl | rfl
    · exact hp.1 (by intro s h; cases h) (by intro s h; cases h)
    · exact hp.2.1 (by intro s h; cases h) (by intro s h; cases h)
    · exact hp.2.2.1 (by intro s h; cases h) (by intro s h; cases h)
    · exact hp.2.2.2.1 (by intro s h; cases h)
    · exact hp.2.2.2.2.1 (by intro s h; cases h)
    · exact hp.2.2.2.2.2 (by intro s h; cases h)

/-! ## Page classifier -/

theorem substackAfterRun_inside (cs : List Char) :
    substackAfterRun cs = true → ".substack.com".data <:+: cs := by
  induction cs with
  | nil => intro h; simp [substackAfterRun] at h
  | cons c cs ih =>
    intro h
    unfold substackAfterRun at h
    rw [Bool.or_eq_true] at h
    rcases h with h | h
    · exact (List.isPrefixOf_iff_prefix.mp h).isInfix
    · rw [Bool.and_eq_true] at h
      exact (ih h.2).trans (List.suffix_cons c cs).isInfix

theorem matchSubstackStart_includes (url : String) (h : matchSubstackStart url = true) :
    includes url "substack.com" = true := by
  rw [includes_iff]
  unfold matchSubstackStart at h
  have hdot : "substack.com".data <:+: ".substack.com".data :=
    (List.suffix_cons '.' "substack.com".data).isInfix
  cases hd : url.data with
  | nil => rw [hd] at h; simp at h
  | cons c cs =>
    rw [hd] at h
    simp only [Bool.and_eq_true] at h
    exact (hdot.trans (substackAfterRun_inside cs h.2)).trans (List.suffix_cons c cs).isInfix

theorem looksLikeNewsletter_iff (url : String) :
    looksLikeNewsletter url = true ↔
      (includes url "substack.com" = true ∨ includes url "/archive" = true ∨
        includes url "/posts/" = true) := by
  unfold looksLikeNewsletter isSubstackDomain
  simp only [Bool.or_eq_true]
  constructor
  · rintro (((h | h) | h) | h)
    · exact Or.inl h
    · exact Or.inl (matchSubstackStart_includes url h)
    · exact Or.inr (Or.inl h)
    · exact Or.inr (Or.inr h)
  · rintro (h | h | h)
    · exact Or.inl (Or.inl (Or.inl h))
    · exact Or.inl (Or.inr h)
    · exact Or.inr h

theorem matchSubstackStart_https (rest : String) :
    matchSubstackStart ("https://" ++ rest) = false := by
  have hd : ("https://" ++ rest).data = "https://".data ++ rest.data := String.data_append _ _
  unfold matchSubstackStart
  rw [hd]
  have h7 : ∀ cs : List Char, substackAfterRun ('/' :: cs) = false := by
    intro cs
    simp [substackAfterRun, List.isPrefixOf]
  simp [substackAfterRun, List.isPrefixOf, h7]

/-- C7, the code at the failing input: the URL
`https://example.com/?ref=substack.com` has host `example.com`, outside the
`substack.com` family, and contains neither `archive` nor `posts`, yet both
handlers run their extractor on it, because the test is
`url.includes('substack.com')` on the whole URL text; the host-anchored
expression `/^[^/]+\.substack\.com/` of `isSubstackDomain` matches no URL that
starts with `https://`, a publisher home page included. -/
theorem classifier_unrelated_host :
    ((whatwg.parse "https://example.com/?ref=substack.com").map (fun u => u.host)
        = some "example.com" ∧
      specInSubstackFamily "example.com" = false ∧
      includes "https://example.com/?ref=substack.com" "archive" = false ∧
      includes "https://example.com/?ref=substack.com" "posts" = false) ∧
    ((cheerioRequestHandler whatwg true { url := "https://example.com/?ref=substack.com" } []
        blankPage "").record.isSome = true ∧
      (playwrightRequestHandler whatwg true { url := "https://example.com/?ref=substack.com" } []
        blankRendered "").record.isSome = true) ∧
    (∀ rest : String, matchSubstackStart ("https://" ++ rest) = false) :=
  ⟨by decide, by decide, matchSubstackStart_https⟩

/-! ## Links that do not resolve -/

theorem foldl_rssStep_truthy (U : URLApi) (url : String) (hrefs : List JSVal) (rss : JSVal)
    (h : rss.truthy = true) : hrefs.foldl (rssStep U url) rss = rss := by
  induction hrefs with
  | nil => rfl
  | cons a rest ih =>
    rw [List.foldl_cons]
    have : rssStep U url rss a = rss := by
      unfold rssStep
      simp [h]
    rw [this, ih]

/-- C9, counterexample: the first feed link has the href `https://bad host/feed`,
which does not resolve against the page URL; `rss` is that raw href, not the
later feed link `/feed` resolved, not the constructed fallback, not empty. -/
theorem unresolved_feed_counterexample :
    whatwg.resolve "https://bad host/feed" "https://writer.substack.com/" = none ∧
    (extractNewsletterFromCheerio whatwg { url := "https://writer.substack.com/" }
        { blankPage with feedHrefs := [some "https://bad host/feed", some "/feed"] } "").get "rss"
      = some (.str "https://bad host/feed") := by
  decide

/-- C9, amended: when the first feed link has a non-empty href that does not
resolve against the page URL, `rss` is that raw href; when the latest-post link
does not resolve, `latest_post` is the trimmed heading text alone; the extractor
returns its record in both cases. -/
theorem unresolved_links (U : URLApi) (request : Request) (p : CheerioPage) (now : String) :
    (∀ href rest, p.feedHrefs = some href :: rest → href ≠ "" →
      U.resolve href (pageUrl request) = none →
      (extractNewsletterFromCheerio U request p now).get "rss" = some (.str href)) ∧
    (∀ link, p.latestHref = some link → U.resolve link (pageUrl request) = none →
      (extractNewsletterFromCheerio U request p now).get "latest_post"
        = some (.str (trim p.latestHeadingText))) := by
  constructor
  · intro href rest hp hne hres
    have htr : (JSVal.str href).truthy = true := by simp [JSVal.truthy, hne]
    have h1 : rssScan U (pageUrl request) p.feedHrefs = .str href := by
      unfold rssScan
      rw [hp, List.map_cons, List.foldl_cons]
      have : rssStep U (pageUrl request) (.str "") (attrVal (some href)) = .str href := by
        unfold rssStep
        simp [attrVal, JSVal.truthy, hne, JSVal.toStr, hres]
      rw [this, foldl_rssStep_truthy U _ _ _ htr]
    have h2 : cheerioRss U (pageUrl request) p = .str href := by
      unfold cheerioRss rssFallback
      rw [h1]
      simp [htr]
    exact congrArg some h2
  · intro link hl hres
    have h : cheerioLatestPost U (pageUrl request) p = .str (trim p.latestHeadingText) := by
      unfold cheerioLatestPost latestPostOf
      rw [hl, or_str, or_attrVal]
      by_cases ht : trim p.latestHeadingText = ""
      · simp [ht, JSVal.truthy]
      · by_cases hk : link = ""
        · simp [ht, hk, JSVal.truthy, attrText, JSVal.toStr]
        · simp [ht, hk, JSVal.truthy, attrText, JSVal.toStr, hres]
    exact congrArg some h

/-- Instance of the amended C9: a page at `https://writer.substack.com/` whose
first feed link and whose latest-post link both have the href
`https://bad host/x`. -/
theorem unresolved_links_witness :
    whatwg.resolve "https://bad host/x" "https://writer.substack.com/" = none ∧
    (extractNewsletterFromCheerio whatwg { url := "https://writer.substack.com/" }
        { blankPage with
            feedHrefs := [some "https://bad host/x"],
            latestHeadingText := " Hello ",
            latestHref := some "https://bad host/x" } "").get "rss"
      = some (.str "https://bad host/x") ∧
    (extractNewsletterFromCheerio whatwg { url := "https://writer.substack.com/" }
        { blankPage with
            feedHrefs := [some "https://bad host/x"],
            latestHeadingText := " Hello ",
            latestHref := some "https://bad host/x" } "").get "latest_post"
      = some (.str "Hello") :=
  ⟨by decide,
   (unresolved_links whatwg { url := "https://writer.substack.com/" }
      { blankPage with
          feedHrefs := [some "https://bad host/x"],
          latestHeadingText := " Hello ",
          latestHref := some "https://bad host/x" } "").1
      "https://bad host/x" [] rfl (by decide) (by decide),
   (unresolved_links whatwg { url := "https://writer.substack.com/" }
      { blankPage with
          feedHrefs := [some "https://bad host/x"],
          latestHeadingText := " Hello ",
          latestHref := some "https://bad host/x" } "").2
      "https://bad host/x" rfl (by decide)⟩

/-! ## Feed fallback -/

/-- C5, the code at the failing input: on the post page
`https://writer.substack.com/p/hello` without any feed link, `rss` is the page URL
followed by `/feed`, not the publication root `https://writer.substack.com`
followed by `/feed`; on the publication home page the two coincide. -/
theorem feed_fallback_static :
    (whatwg.parse "https://writer.substack.com/p/hello").map (fun u => (u.protocol, u.host))
      = some ("https:", "writer.substack.com") ∧
    specInSubstackFamily "writer.substack.com" = true ∧
    (extractNewsletterFromCheerio whatwg { url := "https://writer.substack.com/p/hello" }
        blankPage "").get "rss"
      = some (.str "https://writer.substack.com/p/hello/feed") ∧
    (extractNewsletterFromCheerio whatwg { url := "https://writer.substack.com" }
        blankPage "").get "rss"
      = some (.str "https://writer.substack.com/feed") := by
  decide

/-- C10, the code at the failing input: on `https://writer.substack.com` without
any feed link the rendered extractor leaves `rss` empty, while the static
extractor constructs `https://writer.substack.com/feed`. -/
theorem feed_fallback_rendered :
    (extractNewsletterFromPlaywright whatwg { url := "https://writer.substack.com" }
        blankRendered "").get "rss" = some (.str "") ∧
    (extractNewsletterFromCheerio whatwg { url := "https://writer.substack.com" }
        blankPage "").get "rss" = some (.str "https://writer.substack.com/feed") := by
  decide

end Scraper
